import Mathlib

/-!
Shallow embedding of the retained-mode box-layout engine in
`src/pygame_ui/core.py`: the `Size` value type with its ordering and clamp,
the fit / grow / fixed size resolver, the available-space query, the
position resolver, and the recalculation protocol triggered by
`add_child` / `remove_child`.  Python integers are modelled as `Int`.
-/

/-- Mirrors `LayoutDirection` (core.py lines 9-27). -/
inductive LayoutDirection where
  | LEFT_TO_RIGHT
  | TOP_TO_BOTTOM
  | RIGHT_TO_LEFT
  | BOTTOM_TO_TOP
  | GRID
  | ABSOLUTE
deriving DecidableEq, Repr

/-- Mirrors `SizeMode` (core.py lines 43-57). -/
inductive SizeMode where
  | FIXED
  | FIT
  | GROWX
  | GROWY
deriving DecidableEq, Repr

/-- Mirrors the `Size` dataclass (core.py lines 60-90): a 2D extent. -/
structure Size where
  x : Int
  y : Int
deriving DecidableEq, Repr

/-- Mirrors `Size.__lt__` (core.py line 81): true when either component is
smaller. -/
def Size.lt (a b : Size) : Bool :=
  decide (a.x < b.x) || decide (a.y < b.y)

/-- Mirrors `Size.__eq__` (core.py line 88): componentwise equality. -/
def Size.beq (a b : Size) : Bool :=
  decide (a.x = b.x) && decide (a.y = b.y)

/-- The `>` comparison that `functools.total_ordering` derives from
`__lt__` and `__eq__`: `a > b` iff `not (a < b)` and `a != b`. -/
def Size.gt (a b : Size) : Bool :=
  !(Size.lt a b) && !(Size.beq a b)

/-- The `(left, top, right, bottom)` padding tuple of a Container. -/
structure Padding where
  left : Int
  top : Int
  right : Int
  bottom : Int
deriving DecidableEq, Repr

/-- The layout configuration carried by a `Container` (core.py lines
240-252). -/
structure ContainerCfg where
  sizeMode : SizeMode
  layoutDirection : LayoutDirection
  padding : Padding
  gap : Int
deriving DecidableEq, Repr

/-- The clamp step at the end of `Container._calculate_size` (core.py lines
357-361): `if self.size < self.min_size: self.size = self.min_size elif
self.max_size and self.size > self.max_size: self.size = self.max_size`. -/
def clampSize (minS : Size) (maxS : Option Size) (s : Size) : Size :=
  if Size.lt s minS then minS
  else
    match maxS with
    | some m => if Size.gt s m then m else s
    | none => s

/-- The per-child accumulation step of `Container._fit` (core.py lines
315-321): sum on the main axis, running max on the cross axis; reserved
layout directions take neither branch. -/
def fitAccum (ld : LayoutDirection) (acc : Size) (cs : Size) : Size :=
  match ld with
  | .LEFT_TO_RIGHT => ⟨acc.x + cs.x, max acc.y cs.y⟩
  | .TOP_TO_BOTTOM => ⟨max acc.x cs.x, acc.y + cs.y⟩
  | _ => acc

/-- Mirrors `Container._fit` (core.py lines 310-330) applied to the list of
sizes of the visible children: accumulate over the children, add
`gap * (len(visible_children) - 1)` on the main axis, add the padding on
both axes, and fall back to the container's own current size when there are
no visible children. -/
def fitSize (cfg : ContainerCfg) (selfSize : Size) (visibleSizes : List Size) : Size :=
  let t0 := visibleSizes.foldl (fitAccum cfg.layoutDirection) ⟨0, 0⟩
  let t1 : Size :=
    match cfg.layoutDirection with
    | .LEFT_TO_RIGHT => ⟨t0.x + cfg.gap * ((visibleSizes.length : Int) - 1), t0.y⟩
    | .TOP_TO_BOTTOM => ⟨t0.x, t0.y + cfg.gap * ((visibleSizes.length : Int) - 1)⟩
    | _ => t0
  let t2 : Size := ⟨t1.x + cfg.padding.left + cfg.padding.right,
                    t1.y + cfg.padding.top + cfg.padding.bottom⟩
  if 0 < visibleSizes.length then t2 else selfSize

/-- The view of a parent Container that `get_child_available_space` reads:
its size, padding, layout direction, gap, and the `(size, visible)` data of
its full children list in order. -/
structure PView where
  size : Size
  padding : Padding
  layoutDirection : LayoutDirection
  gap : Int
  childrenMeta : List (Size × Bool)
deriving DecidableEq, Repr

/-- The sizes of the visible children of a parent view, in order
(`Container._visible_children`, core.py lines 270-274). -/
def PView.visibleSizes (pv : PView) : List Size :=
  (pv.childrenMeta.filter (fun m => m.2)).map (fun m => m.1)

/-- Mirrors `Container.get_child_available_space` (core.py lines 276-308),
including the Python loop-variable shadowing: inside the branch where the
requested direction matches the layout direction, `for child in
self._visible_children()` rebinds the name `child`, so the trailing
opposite-axis subtraction `available_space.y -= child.size.y` (resp. `.x`)
uses the LAST VISIBLE CHILD's extent when at least one visible child
exists, and the original `child` argument otherwise. -/
def getChildAvailableSpace (pv : PView) (childSize : Size) (dir : LayoutDirection) : Size :=
  let a0 : Size := ⟨pv.size.x - pv.padding.left - pv.padding.right,
                    pv.size.y - pv.padding.top - pv.padding.bottom⟩
  match dir with
  | .LEFT_TO_RIGHT =>
    if pv.layoutDirection = .LEFT_TO_RIGHT then
      let vs := pv.visibleSizes
      let ax := a0.x - (vs.map Size.x).sum - pv.gap * ((pv.childrenMeta.length : Int) - 1)
      let cur := vs.getLast?.getD childSize
      ⟨ax, a0.y - cur.y⟩
    else if pv.layoutDirection = .TOP_TO_BOTTOM then
      ⟨a0.x - childSize.x, a0.y - childSize.y⟩
    else
      ⟨a0.x, a0.y - childSize.y⟩
  | .TOP_TO_BOTTOM =>
    if pv.layoutDirection = .TOP_TO_BOTTOM then
      let vs := pv.visibleSizes
      let ay := a0.y - (vs.map Size.y).sum - pv.gap * ((pv.childrenMeta.length : Int) - 1)
      let cur := vs.getLast?.getD childSize
      ⟨a0.x - cur.x, ay⟩
    else if pv.layoutDirection = .LEFT_TO_RIGHT then
      ⟨a0.x - childSize.x, a0.y - childSize.y⟩
    else
      ⟨a0.x - childSize.x, a0.y⟩
  | _ => a0

/-- What a grow-mode container sees through its `parent` field: either a
plain `UIElement` that is not a `Container`, or a Container view. -/
inductive ParentRef where
  | nonContainer
  | ofContainer (pv : PView)

/-- Mirrors `Container._calculate_size` (core.py lines 332-361) as a size
function: `cur` is the element's current size, `visKidSizes` the sizes of
its own visible children, `parent` its `parent` field (`none` models
`self.parent is None`).  FIT refits when it has visible children; GROWX /
GROWY add the parent's available space on their axis and refit the other
axis, guarded by `if self.parent and isinstance(self.parent, Container)`;
FIXED keeps the size.  The min/max clamp runs at the end in every case. -/
def calculateSize (parent : Option ParentRef) (cfg : ContainerCfg)
    (minS : Size) (maxS : Option Size) (cur : Size) (visKidSizes : List Size) : Size :=
  let s1 : Size :=
    match cfg.sizeMode with
    | .FIT => if 0 < visKidSizes.length then fitSize cfg cur visKidSizes else cur
    | .GROWX =>
        match parent with
        | some (.ofContainer pv) =>
            let av := getChildAvailableSpace pv cur .LEFT_TO_RIGHT
            let nx := cur.x + av.x
            ⟨nx, (fitSize cfg ⟨nx, cur.y⟩ visKidSizes).y⟩
        | _ => cur
    | .GROWY =>
        match parent with
        | some (.ofContainer pv) =>
            let av := getChildAvailableSpace pv cur .TOP_TO_BOTTOM
            let ny := cur.y + av.y
            ⟨(fitSize cfg ⟨cur.x, ny⟩ visKidSizes).x, ny⟩
        | _ => cur
    | .FIXED => cur
  clampSize minS maxS s1

/-- The mutable per-element state of a `UIElement` that the layout engine
reads and writes (core.py lines 176-190): size, min/max size, position,
visibility, the parent back-reference (modelled as the owning container's
id), and an id standing in for Python object identity. -/
structure BoxData where
  id : Nat
  size : Size
  minSize : Size
  maxSize : Option Size
  position : Int × Int
  visible : Bool
  parentRef : Option Nat
deriving DecidableEq, Repr

/-- A direct child of a Container: either a plain (non-Container)
`UIElement`, or a child `Container` with its own configuration and its own
children (which are the recalculated container's grandchildren; the
protocol never reaches deeper, so grandchildren are modelled as leaves). -/
inductive Child where
  | box (d : BoxData)
  | cont (d : BoxData) (cfg : ContainerCfg) (kids : List BoxData)
deriving DecidableEq, Repr

/-- The element state of a child. -/
def Child.dOf : Child → BoxData
  | .box d => d
  | .cont d _ _ => d

/-- Replaces the element state of a child, keeping its kind, configuration
and grandchildren. -/
def Child.setD : Child → BoxData → Child
  | .box _, d => .box d
  | .cont _ cfg kids, d => .cont d cfg kids

def Child.visibleOf (c : Child) : Bool := c.dOf.visible

def Child.sizeOf (c : Child) : Size := c.dOf.size

def Child.idOf (c : Child) : Nat := c.dOf.id

/-- The `(size, visible)` pair the parent's available-space query reads from
a child. -/
def Child.meta (c : Child) : Size × Bool := (c.dOf.size, c.dOf.visible)

/-- `True` exactly for visible child Containers whose `size_mode` is GROWX
or GROWY — the children collected into `growable_children` by
`Container.recalculate` (core.py lines 422-427). -/
def Child.isGrow : Child → Bool
  | .box _ => false
  | .cont _ cfg _ => cfg.sizeMode == SizeMode.GROWX || cfg.sizeMode == SizeMode.GROWY

/-- The sizes of a child container's own visible children
(the grandchildren), which its `_calculate_size` consumes. -/
def Child.visKidSizes : Child → List Size
  | .box _ => []
  | .cont _ _ kids => (kids.filter (fun k => k.visible)).map (fun k => k.size)

/-- A Container together with its element state and children — the node on
which the recalculation protocol runs. -/
structure ParentC where
  id : Nat
  d : BoxData
  cfg : ContainerCfg
  children : List Child
deriving DecidableEq, Repr

/-- The parent view a container presents to its children during
recalculation. -/
def pviewOf (size : Size) (cfg : ContainerCfg) (cs : List Child) : PView :=
  ⟨size, cfg.padding, cfg.layoutDirection, cfg.gap, cs.map Child.meta⟩

/-- One child's `_calculate_size()` call, with the recalculating container
as its parent.  Plain (non-Container) children are never resized
(`isinstance(child, Container)` check, core.py line 424). -/
def childCalcSize (pv : PView) : Child → Child
  | .box d => .box d
  | .cont d cfg kids =>
      .cont { d with size := calculateSize (some (.ofContainer pv)) cfg d.minSize d.maxSize
                              d.size ((kids.filter (fun k => k.visible)).map (fun k => k.size)) }
        cfg kids

/-- The first child loop of `Container.recalculate` (core.py lines
422-428): every visible non-grow Container child is resized; grow children
are skipped (collected for the second loop); plain children and invisible
children are untouched. -/
def nonGrowPass (pv : PView) (cs : List Child) : List Child :=
  cs.map (fun c => if c.visibleOf && !c.isGrow then childCalcSize pv c else c)

/-- One step of the grow loop (core.py lines 430-431): if the child at
index `i` is a visible grow container, resize it against the parent's
CURRENT state (its freshly computed size and the sizes the children have at
this point of the loop). -/
def growStep (pd : Size) (pcfg : ContainerCfg) (cs : List Child) (i : Nat) : List Child :=
  match cs.get? i with
  | some c =>
      if c.visibleOf && c.isGrow then
        cs.set i (childCalcSize (pviewOf pd pcfg cs) c)
      else cs
  | none => cs

/-- The second child loop of `Container.recalculate` (core.py lines
429-431): grow children are resized in order, after every non-grow child
has its final size. -/
def growPass (pd : Size) (pcfg : ContainerCfg) (cs : List Child) : List Child :=
  (List.range cs.length).foldl (growStep pd pcfg) cs

/-- The offset advance of `Container._calculate_position` (core.py lines
375-381): move along the main axis by the element's extent, plus `gap`
unless the element is the last entry of the full children list
(`element != self.children[-1]`, an identity test).  Reserved layout
directions never advance the offset. -/
def advanceOff (ld : LayoutDirection) (gap : Int) (off : Size) (s : Size)
    (isLast : Bool) : Size :=
  match ld with
  | .LEFT_TO_RIGHT => ⟨off.x + s.x + (if isLast then 0 else gap), off.y⟩
  | .TOP_TO_BOTTOM => ⟨off.x, off.y + s.y + (if isLast then 0 else gap)⟩
  | _ => off

/-- Mirrors the loop of `Container._calculate_position` (core.py lines
368-381) generically over any element type: each visible element is placed
at the current offset, then the offset advances along the main axis. -/
def positionFold (vis : α → Bool) (sz : α → Size) (setP : α → Int × Int → α)
    (ld : LayoutDirection) (gap : Int) : Size → List α → List α
  | _, [] => []
  | off, c :: rest =>
      if vis c then
        setP c (off.x, off.y) ::
          positionFold vis sz setP ld gap (advanceOff ld gap off (sz c) rest.isEmpty) rest
      else c :: positionFold vis sz setP ld gap off rest

/-- Replaces a child's position only. -/
def Child.setPos (c : Child) (p : Int × Int) : Child :=
  c.setD { c.dOf with position := p }

/-- `Container._calculate_position` run on a list of direct children,
starting from the `(padding.left, padding.top)` offset (core.py line
368). -/
def calcPositionTop (cfg : ContainerCfg) (cs : List Child) : List Child :=
  positionFold Child.visibleOf Child.sizeOf Child.setPos
    cfg.layoutDirection cfg.gap ⟨cfg.padding.left, cfg.padding.top⟩ cs

/-- A child Container's own `_calculate_position()` call, which positions
the grandchildren (core.py lines 433-435); plain children have none. -/
def childPositionPass : Child → Child
  | .box d => .box d
  | .cont d cfg kids =>
      .cont d cfg
        (positionFold (fun k => k.visible) (fun k => k.size)
          (fun k p => { k with position := p })
          cfg.layoutDirection cfg.gap ⟨cfg.padding.left, cfg.padding.top⟩ kids)

/-- Mirrors `Container.recalculate` (core.py lines 417-436): recompute
self's size (using `selfParent` for a grow-mode self), resize visible
non-grow Container children, then grow children, then position the direct
children, then run the position pass of every visible child Container. -/
def recalculate (selfParent : Option ParentRef) (p : ParentC) : ParentC :=
  let newSize := calculateSize selfParent p.cfg p.d.minSize p.d.maxSize p.d.size
                   ((p.children.filter Child.visibleOf).map Child.sizeOf)
  let d1 := { p.d with size := newSize }
  let cs1 := nonGrowPass (pviewOf d1.size p.cfg p.children) p.children
  let cs2 := growPass d1.size p.cfg cs1
  let cs3 := calcPositionTop p.cfg cs2
  let cs4 := cs3.map (fun c => if c.visibleOf then childPositionPass c else c)
  { p with d := d1, children := cs4 }

/-- Sets a child's parent back-reference. -/
def Child.setParentRef (c : Child) (r : Option Nat) : Child :=
  c.setD { c.dOf with parentRef := r }

/-- Mirrors `Container.add_child` (core.py lines 392-405): append the child,
set its parent reference to this container, recalculate.  The source
performs no check on the child's existing parent and has no failure
path. -/
def addChild (selfParent : Option ParentRef) (p : ParentC) (c : Child) : ParentC :=
  recalculate selfParent { p with children := p.children ++ [c.setParentRef (some p.id)] }

/-- Removes the first child with the given identity, as
`list.remove(child)` does (identity equality for `UIElement`s). -/
def removeFirstById : List Child → Nat → List Child
  | [], _ => []
  | c :: rest, i => if c.idOf = i then rest else c :: removeFirstById rest i

/-- The outcome of `remove_child`: the container's state afterwards, the
returned element (if any) and the raised exception (if any). -/
structure RemoveResult where
  state : ParentC
  returned : Option Child
  err : Option String
deriving DecidableEq, Repr

/-- Mirrors `Container.remove_child` (core.py lines 407-415):
`self.children.index(child)` raises `ValueError` when the child is not
present — before anything is mutated; otherwise the guard `!= -1` always
holds, the child's parent is cleared, it is removed, the container
recalculates, and the child is returned. -/
def removeChild (selfParent : Option ParentRef) (p : ParentC) (c : Child) : RemoveResult :=
  if p.children.any (fun x => x.idOf == c.idOf) then
    ⟨recalculate selfParent { p with children := removeFirstById p.children c.idOf },
     some (c.setParentRef none), none⟩
  else
    ⟨p, none, some "ValueError: x not in list"⟩

/-- Spec-side definition: the maximum of a list of integers, 0 for the
empty list (claims only use it on non-empty lists). -/
def listMax : List Int → Int
  | [] => 0
  | x :: xs => xs.foldl max x

/-- Spec-side definition, following the claim's words for the clamp step:
both the min and the max replacement use the OR-based componentwise
comparison. -/
def clampSpecOr (minS : Size) (maxS : Option Size) (s : Size) : Size :=
  if s.x < minS.x ∨ s.y < minS.y then minS
  else
    match maxS with
    | some m => if s.x > m.x ∨ s.y > m.y then m else s
    | none => s

/-- The widths of the GROWX container children of a children list, in
order. -/
def growContWidths (cs : List Child) : List Int :=
  cs.filterMap (fun c =>
    match c with
    | .cont d cfg _ => if cfg.sizeMode == SizeMode.GROWX then some d.size.x else none
    | .box _ => none)

/-- Spec-side: removes the first occurrence of a value from a list of
ids. -/
def eraseFirstNat : List Nat → Nat → List Nat
  | [], _ => []
  | x :: xs, i => if x = i then xs else x :: eraseFirstNat xs i

/-- Splitting the fit accumulation fold in the horizontal case into the
x-sum and the running y-max. -/
theorem foldl_fitAccum_LTR (vs : List Size) (a : Size) :
    vs.foldl (fitAccum .LEFT_TO_RIGHT) a =
      ⟨a.x + (vs.map Size.x).sum, (vs.map Size.y).foldl max a.y⟩ := by
  induction vs generalizing a with
  | nil => simp [fitAccum]
  | cons v vs ih =>
      simp only [List.foldl_cons, List.map_cons, List.sum_cons]
      rw [ih]
      simp [fitAccum, add_assoc]

/-- Splitting the fit accumulation fold in the vertical case. -/
theorem foldl_fitAccum_TTB (vs : List Size) (a : Size) :
    vs.foldl (fitAccum .TOP_TO_BOTTOM) a =
      ⟨(vs.map Size.x).foldl max a.x, a.y + (vs.map Size.y).sum⟩ := by
  induction vs generalizing a with
  | nil => simp [fitAccum]
  | cons v vs ih =>
      simp only [List.foldl_cons, List.map_cons, List.sum_cons]
      rw [ih]
      simp [fitAccum, add_assoc]

/-- A running max started at 0 over a non-empty list of non-negative
integers is the list's maximum. -/
theorem foldl_max_zero_eq_listMax (l : List Int) (hne : l ≠ [])
    (hnn : ∀ v ∈ l, 0 ≤ v) : l.foldl max 0 = listMax l := by
  cases l with
  | nil => exact absurd rfl hne
  | cons x xs =>
      have hx : max 0 x = x := max_eq_right (hnn x (List.mem_cons_self x xs))
      simp only [List.foldl_cons, listMax, hx]

/-- Characterization of the clamp step: the min replacement fires on the
OR-based comparison; the max replacement fires on the comparison
`total_ordering` derives from it — both components at least the max and
not exactly equal to it. -/
theorem clampSize_cases (minS : Size) (maxS : Option Size) (s : Size) :
    clampSize minS maxS s =
      if s.x < minS.x ∨ s.y < minS.y then minS
      else
        match maxS with
        | some m => if m.x ≤ s.x ∧ m.y ≤ s.y ∧ s ≠ m then m else s
        | none => s := by
  rcases s with ⟨sx, sy⟩
  rcases minS with ⟨ax, ay⟩
  rcases maxS with _ | ⟨bx, bz⟩ <;>
    simp only [clampSize, Size.lt, Size.gt, Size.beq, Bool.or_eq_true, Bool.and_eq_true,
      Bool.not_eq_true', Bool.or_eq_false_iff, Bool.and_eq_false_iff, decide_eq_true_eq,
      decide_eq_false_iff_not, not_lt, Size.mk.injEq, ne_eq, not_and] <;>
    split_ifs <;> first
      | rfl
      | (simp only [Size.mk.injEq]; omega)

/-- Claim C1: for a FIT container with layout LEFT_TO_RIGHT (resp.
TOP_TO_BOTTOM) and a non-empty list of visible children with non-negative
cross extents, the fit step yields main-axis extent = sum of main extents +
gap * (count - 1) + main-axis padding, and cross-axis extent = max of cross
extents + cross-axis padding; and the spec's example evaluates to
(56, 34). -/
theorem claim_c1_fit (cfg : ContainerCfg) (s0 : Size) (vs : List Size) (hne : vs ≠ []) :
    (cfg.layoutDirection = .LEFT_TO_RIGHT → (∀ v ∈ vs, 0 ≤ v.y) →
      fitSize cfg s0 vs =
        ⟨(vs.map Size.x).sum + cfg.gap * ((vs.length : Int) - 1)
            + cfg.padding.left + cfg.padding.right,
         listMax (vs.map Size.y) + cfg.padding.top + cfg.padding.bottom⟩)
    ∧ (cfg.layoutDirection = .TOP_TO_BOTTOM → (∀ v ∈ vs, 0 ≤ v.x) →
      fitSize cfg s0 vs =
        ⟨listMax (vs.map Size.x) + cfg.padding.left + cfg.padding.right,
         (vs.map Size.y).sum + cfg.gap * ((vs.length : Int) - 1)
            + cfg.padding.top + cfg.padding.bottom⟩)
    ∧ fitSize ⟨.FIT, .LEFT_TO_RIGHT, ⟨2, 2, 2, 2⟩, 2⟩ ⟨0, 0⟩ [⟨20, 20⟩, ⟨30, 30⟩]
        = ⟨56, 34⟩ := by
  have hlen : 0 < vs.length := List.length_pos.mpr hne
  refine ⟨?_, ?_, by decide⟩
  · intro hld hnn
    have hmax := foldl_max_zero_eq_listMax (vs.map Size.y)
      (by simpa using hne)
      (by intro v hv
          rcases List.mem_map.mp hv with ⟨w, hw, rfl⟩
          exact hnn w hw)
    unfold fitSize
    rw [hld, foldl_fitAccum_LTR]
    simp [hlen, hmax]
  · intro hld hnn
    have hmax := foldl_max_zero_eq_listMax (vs.map Size.x)
      (by simpa using hne)
      (by intro v hv
          rcases List.mem_map.mp hv with ⟨w, hw, rfl⟩
          exact hnn w hw)
    unfold fitSize
    rw [hld, foldl_fitAccum_TTB]
    simp [hlen, hmax]

/-- Witness for C1 at the spec's own example. -/
theorem claim_c1_fit_witness :
    fitSize ⟨.FIT, .LEFT_TO_RIGHT, ⟨2, 2, 2, 2⟩, 2⟩ ⟨0, 0⟩ [⟨20, 20⟩, ⟨30, 30⟩]
      = ⟨(([⟨20, 20⟩, ⟨30, 30⟩] : List Size).map Size.x).sum
            + 2 * ((([⟨20, 20⟩, ⟨30, 30⟩] : List Size).length : Int) - 1) + 2 + 2,
         listMax (([⟨20, 20⟩, ⟨30, 30⟩] : List Size).map Size.y) + 2 + 2⟩ :=
  (claim_c1_fit ⟨.FIT, .LEFT_TO_RIGHT, ⟨2, 2, 2, 2⟩, 2⟩ ⟨0, 0⟩ [⟨20, 20⟩, ⟨30, 30⟩]
    (by decide)).1 rfl (by decide)

/-- Claim C4 (counterexample): at size (10,5) with min (0,0) and max
(8,20), the claim's OR-based max replacement would return the max, but the
code leaves the size unchanged, because the derived `>` needs BOTH
components to be at least the max. -/
theorem claim_c4_counterexample :
    clampSize ⟨0, 0⟩ (some ⟨8, 20⟩) ⟨10, 5⟩ ≠ clampSpecOr ⟨0, 0⟩ (some ⟨8, 20⟩) ⟨10, 5⟩ := by
  decide

/-- Claim C4 (amended): the min replacement is wholesale and OR-based as
claimed, but the max replacement fires only when the size is at least the
max on BOTH axes and differs from it (the `>` that `total_ordering`
derives), replacing wholesale by the max. -/
theorem claim_c4_amended (minS : Size) (maxS : Option Size) (s : Size) :
    clampSize minS maxS s =
      if s.x < minS.x ∨ s.y < minS.y then minS
      else
        match maxS with
        | some m => if m.x ≤ s.x ∧ m.y ≤ s.y ∧ s ≠ m then m else s
        | none => s :=
  clampSize_cases minS maxS s

/-- Claim C7 (counterexample): with min (10,0) and max (5,100), clamping
(20,200) once gives (5,100) but clamping twice gives (10,0) — the clamp
step is not idempotent for every min/max configuration. -/
theorem claim_c7_counterexample :
    clampSize ⟨10, 0⟩ (some ⟨5, 100⟩) (clampSize ⟨10, 0⟩ (some ⟨5, 100⟩) ⟨20, 200⟩)
      ≠ clampSize ⟨10, 0⟩ (some ⟨5, 100⟩) ⟨20, 200⟩ := by
  decide

theorem clampSize_mem (minS : Size) (maxS : Option Size) (s : Size) :
    clampSize minS maxS s = minS ∨ clampSize minS maxS s = s ∨
      ∃ m, maxS = some m ∧ clampSize minS maxS s = m := by
  unfold clampSize
  cases maxS with
  | none =>
      by_cases h : Size.lt s minS = true <;> simp [h]
  | some m =>
      by_cases h : Size.lt s minS = true
      · simp [h]
      · by_cases h2 : Size.gt s m = true <;> simp [h, h2]

theorem clampSize_fix_min (minS : Size) (maxS : Option Size)
    (hok : ∀ m, maxS = some m → minS.x ≤ m.x ∧ minS.y ≤ m.y) :
    clampSize minS maxS minS = minS := by
  rcases minS with ⟨ax, ay⟩
  rcases maxS with _ | ⟨bx, bz⟩
  · simp [clampSize, Size.lt]
  · obtain ⟨h1, h2⟩ := hok ⟨bx, bz⟩ rfl
    simp only [clampSize, Size.lt, Size.gt, Size.beq, Bool.or_eq_true, Bool.and_eq_true,
      Bool.not_eq_true', Bool.or_eq_false_iff, Bool.and_eq_false_iff, decide_eq_true_eq,
      decide_eq_false_iff_not, not_lt] at *
    split_ifs <;> first
      | rfl
      | (simp only [Size.mk.injEq] at *; omega)

theorem clampSize_fix_max (minS : Size) (maxS : Option Size) (m : Size)
    (hok : ∀ m', maxS = some m' → minS.x ≤ m'.x ∧ minS.y ≤ m'.y)
    (hm : maxS = some m) :
    clampSize minS maxS m = m := by
  obtain ⟨h1, h2⟩ := hok m hm
  rcases minS with ⟨ax, ay⟩
  rcases m with ⟨bx, bz⟩
  subst hm
  simp only [clampSize, Size.lt, Size.gt, Size.beq, Bool.or_eq_true, Bool.and_eq_true,
    Bool.not_eq_true', Bool.or_eq_false_iff, Bool.and_eq_false_iff, decide_eq_true_eq,
    decide_eq_false_iff_not, not_lt] at *
  split_ifs <;> first
    | rfl
    | (simp only [Size.mk.injEq] at *; omega)

/-- Claim C7 (amended): the clamp step is idempotent whenever the
configuration is consistent — no max is set, or the min is componentwise at
most the max. -/
theorem claim_c7_amended (minS : Size) (maxS : Option Size) (s : Size)
    (hok : ∀ m, maxS = some m → minS.x ≤ m.x ∧ minS.y ≤ m.y) :
    clampSize minS maxS (clampSize minS maxS s) = clampSize minS maxS s := by
  rcases clampSize_mem minS maxS s with h | h | ⟨m, hm, h⟩
  · rw [h]
    exact clampSize_fix_min minS maxS hok
  · rw [h]
    exact h
  · rw [h]
    exact clampSize_fix_max minS maxS m hok hm

/-- Witness for C7 (amended) at a consistent configuration. -/
theorem claim_c7_amended_witness :
    clampSize ⟨0, 0⟩ (some ⟨5, 5⟩) (clampSize ⟨0, 0⟩ (some ⟨5, 5⟩) ⟨10, 10⟩)
      = clampSize ⟨0, 0⟩ (some ⟨5, 5⟩) ⟨10, 10⟩ :=
  claim_c7_amended ⟨0, 0⟩ (some ⟨5, 5⟩) ⟨10, 10⟩ (by intro m hm; cases hm; exact ⟨by decide, by decide⟩)

/-- Claim C10: a GROWX / GROWY container whose parent is absent or not a
Container keeps its size apart from the min/max clamp step — no growth
occurs. -/
theorem claim_c10_grow_no_parent (parent : Option ParentRef) (cfg : ContainerCfg)
    (minS : Size) (maxS : Option Size) (cur : Size) (visKidSizes : List Size)
    (hm : cfg.sizeMode = .GROWX ∨ cfg.sizeMode = .GROWY)
    (hp : parent = none ∨ parent = some .nonContainer) :
    calculateSize parent cfg minS maxS cur visKidSizes = clampSize minS maxS cur := by
  rcases hm with hm | hm <;> rcases hp with hp | hp <;>
    simp [calculateSize, hm, hp]

/-- Witness for C10: a parentless GROWX container of size (7,9). -/
theorem claim_c10_grow_no_parent_witness :
    calculateSize none ⟨.GROWX, .LEFT_TO_RIGHT, ⟨0, 0, 0, 0⟩, 0⟩ ⟨0, 0⟩ none ⟨7, 9⟩ []
      = clampSize ⟨0, 0⟩ none ⟨7, 9⟩ :=
  claim_c10_grow_no_parent none _ _ _ _ _ (Or.inl rfl) (Or.inl rfl)

@[simp]
theorem Child.dOf_setD (c : Child) (d : BoxData) : (c.setD d).dOf = d := by
  cases c <;> rfl

/-- A position-only update keeps a child's projection whenever the
projection ignores the position. -/
theorem map_positionFold (vis : α → Bool) (sz : α → Size) (setP : α → Int × Int → α)
    (ld : LayoutDirection) (gap : Int) (f : α → β)
    (hf : ∀ c q, f (setP c q) = f c) :
    ∀ (off : Size) (l : List α),
      (positionFold vis sz setP ld gap off l).map f = l.map f := by
  intro off l
  induction l generalizing off with
  | nil => rfl
  | cons c rest ih =>
      unfold positionFold
      by_cases h : vis c = true
      · simp only [h, if_true, List.map_cons, hf, ih]
      · simp only [h, if_false, Bool.false_eq_true, List.map_cons, ih]

/-- Replacing a list entry by one with the same projection keeps the
projected list. -/
theorem map_set_of_get (l : List α) (i : Nat) (c' : α) (f : α → β)
    (h : ∀ c, l.get? i = some c → f c' = f c) :
    (l.set i c').map f = l.map f := by
  induction l generalizing i with
  | nil => rfl
  | cons a rest ih =>
      cases i with
      | zero =>
          simp only [List.set_cons_zero, List.map_cons]
          rw [h a rfl]
      | succ n =>
          simp only [List.set_cons_succ, List.map_cons]
          rw [ih n (fun c hc => h c hc)]

theorem map_nonGrowPass (pv : PView) (cs : List Child) (f : Child → β)
    (hc : ∀ pv' c, f (childCalcSize pv' c) = f c) :
    (nonGrowPass pv cs).map f = cs.map f := by
  induction cs with
  | nil => rfl
  | cons c rest ih =>
      unfold nonGrowPass at *
      simp only [List.map_cons]
      by_cases h : (c.visibleOf && !c.isGrow) = true
      · simp only [h, if_true, hc, ih]
      · simp only [h, if_false, Bool.false_eq_true, ih]

theorem map_growStep (pd : Size) (pcfg : ContainerCfg) (cs : List Child) (i : Nat)
    (f : Child → β) (hc : ∀ pv' c, f (childCalcSize pv' c) = f c) :
    (growStep pd pcfg cs i).map f = cs.map f := by
  unfold growStep
  cases h : cs.get? i with
  | none => rfl
  | some c =>
      by_cases hg : (c.visibleOf && c.isGrow) = true
      · simp only [hg, if_true]
        refine map_set_of_get cs i _ f (fun c2 h2 => ?_)
        rw [h] at h2
        cases h2
        exact hc _ _
      · simp only [hg, if_false, Bool.false_eq_true]

theorem map_growPass_aux (pd : Size) (pcfg : ContainerCfg) (f : Child → β)
    (hc : ∀ pv' c, f (childCalcSize pv' c) = f c) :
    ∀ (idxs : List Nat) (cs : List Child),
      (idxs.foldl (growStep pd pcfg) cs).map f = cs.map f := by
  intro idxs
  induction idxs with
  | nil => intro cs; rfl
  | cons i rest ih =>
      intro cs
      simp only [List.foldl_cons]
      rw [ih (growStep pd pcfg cs i), map_growStep pd pcfg cs i f hc]

theorem map_growPass (pd : Size) (pcfg : ContainerCfg) (cs : List Child) (f : Child → β)
    (hc : ∀ pv' c, f (childCalcSize pv' c) = f c) :
    (growPass pd pcfg cs).map f = cs.map f :=
  map_growPass_aux pd pcfg f hc (List.range cs.length) cs

/-- The recalculation protocol keeps every per-child projection that
ignores the size, the position and the grandchildren's data. -/
theorem map_recalculate (sp : Option ParentRef) (p : ParentC) (f : Child → β)
    (hc : ∀ pv' c, f (childCalcSize pv' c) = f c)
    (hp : ∀ c q, f (Child.setPos c q) = f c)
    (hq : ∀ c, f (childPositionPass c) = f c) :
    (recalculate sp p).children.map f = p.children.map f := by
  unfold recalculate
  simp only []
  have h4 : ∀ (l : List Child),
      (l.map (fun c => if c.visibleOf then childPositionPass c else c)).map f = l.map f := by
    intro l
    induction l with
    | nil => rfl
    | cons c rest ih =>
        simp only [List.map_cons, ih]
        by_cases h : c.visibleOf = true
        · simp only [h, if_true, hq]
        · simp only [h, if_false, Bool.false_eq_true]
  rw [h4]
  unfold calcPositionTop
  rw [map_positionFold _ _ _ _ _ f hp]
  rw [map_growPass _ _ _ f hc]
  rw [map_nonGrowPass _ _ f hc]

@[simp]
theorem idOf_childCalcSize (pv : PView) (c : Child) :
    (childCalcSize pv c).idOf = c.idOf := by
  cases c <;> rfl

theorem idPar_childCalcSize (pv : PView) (c : Child) :
    ((childCalcSize pv c).idOf, (childCalcSize pv c).dOf.parentRef)
      = (c.idOf, c.dOf.parentRef) := by
  cases c <;> rfl

/-- Commuting child removal with the id projection. -/
theorem map_id_removeFirstById (cs : List Child) (i : Nat) :
    (removeFirstById cs i).map Child.idOf = eraseFirstNat (cs.map Child.idOf) i := by
  induction cs with
  | nil => rfl
  | cons c rest ih =>
      by_cases h : c.idOf = i
      · simp only [removeFirstById, eraseFirstNat, if_pos h, List.map_cons]
      · simp only [removeFirstById, eraseFirstNat, if_neg h, List.map_cons, ih]

/-- The parent state of C2's failing input: a 100x100 container, no
padding, no gap, horizontal layout, two visible children of sizes (5,7)
and (11,13). -/
def pvC2v : PView :=
  ⟨⟨100, 100⟩, ⟨0, 0, 0, 0⟩, .LEFT_TO_RIGHT, 0, [(⟨5, 7⟩, true), (⟨11, 13⟩, true)]⟩

/-- Claim C2 (code divergence): querying available space for the FIRST
child (size (5,7)) on the layout axis returns (84, 87): the cross axis
subtracts the LAST visible child's extent 13 (the loop variable shadows the
`child` parameter), not the queried child's extent 7, which would give
(84, 93) as the claim states. -/
theorem claim_c2_shadowing_eval :
    getChildAvailableSpace pvC2v ⟨5, 7⟩ .LEFT_TO_RIGHT = ⟨84, 87⟩
    ∧ (⟨84, 87⟩ : Size) ≠ ⟨84, 93⟩ := by
  decide

@[simp]
theorem idOf_setPos (c : Child) (q : Int × Int) : (Child.setPos c q).idOf = c.idOf := by
  cases c <;> rfl

@[simp]
theorem idOf_childPositionPass (c : Child) : (childPositionPass c).idOf = c.idOf := by
  cases c <;> rfl

/-- Claim C8 (amended): `add_child` performs no ownership check — for ANY
child, even one whose parent reference points to another container, it
appends the child to the children list and overwrites the child's parent
reference with the new parent's id; there is no failure path. -/
theorem claim_c8_amended (sp : Option ParentRef) (p : ParentC) (c : Child) :
    (addChild sp p c).children.map (fun x => (x.idOf, x.dOf.parentRef))
      = p.children.map (fun x => (x.idOf, x.dOf.parentRef)) ++ [(c.idOf, some p.id)] := by
  unfold addChild
  rw [map_recalculate _ _ _ (fun pv' c' => idPar_childCalcSize pv' c')
      (fun c' q => by cases c' <;> rfl) (fun c' => by cases c' <;> rfl)]
  simp [Child.setParentRef, Child.idOf]

/-- C8's failing input: a parent container with id 7 and a child box (id 3)
that already belongs to another container (parent reference 99). -/
def pC8v : ParentC :=
  ⟨7, ⟨0, ⟨50, 50⟩, ⟨0, 0⟩, none, (0, 0), true, none⟩,
   ⟨.FIT, .LEFT_TO_RIGHT, ⟨0, 0, 0, 0⟩, 0⟩, []⟩

/-- C8's foreign-owned child. -/
def cC8v : Child := .box ⟨3, ⟨20, 20⟩, ⟨0, 0⟩, none, (0, 0), true, some 99⟩

/-- Claim C8 (counterexample): adding a child that already belongs to
container 99 succeeds silently — the child ends up attached with its parent
reference overwritten to 7 — instead of failing fast as the claim
demands. -/
theorem claim_c8_counterexample :
    (addChild none pC8v cC8v).children.map (fun x => (x.idOf, x.dOf.parentRef))
      = [(3, some 7)] := by
  decide

/-- Claim C9: removing an absent child raises `ValueError` ("not found")
with the container and child left exactly as they were; removing a present
child clears its parent reference, returns it, and removes precisely the
first child with that identity from the children list. -/
theorem claim_c9_remove (sp : Option ParentRef) (p : ParentC) (c : Child) :
    ((p.children.any (fun x => x.idOf == c.idOf)) = false →
      removeChild sp p c = ⟨p, none, some "ValueError: x not in list"⟩)
    ∧ ((p.children.any (fun x => x.idOf == c.idOf)) = true →
      (removeChild sp p c).err = none
      ∧ (removeChild sp p c).returned = some (c.setParentRef none)
      ∧ (removeChild sp p c).state.children.map Child.idOf
          = eraseFirstNat (p.children.map Child.idOf) c.idOf) := by
  constructor
  · intro h
    simp [removeChild, h]
  · intro h
    simp only [removeChild, h, if_true]
    refine ⟨trivial, trivial, ?_⟩
    rw [map_recalculate _ _ _ (fun pv' c' => idOf_childCalcSize pv' c')
        (fun c' q => idOf_setPos c' q) (fun c' => idOf_childPositionPass c')]
    exact map_id_removeFirstById p.children c.idOf

/-- C9's concrete parent: one child box with id 5. -/
def pC9v : ParentC :=
  ⟨1, ⟨0, ⟨40, 40⟩, ⟨0, 0⟩, none, (0, 0), true, none⟩,
   ⟨.FIT, .LEFT_TO_RIGHT, ⟨0, 0, 0, 0⟩, 0⟩,
   [.box ⟨5, ⟨10, 10⟩, ⟨0, 0⟩, none, (0, 0), true, some 1⟩]⟩

/-- A child identity not present in `pC9v`. -/
def cC9absent : Child := .box ⟨6, ⟨10, 10⟩, ⟨0, 0⟩, none, (0, 0), true, none⟩

/-- The child present in `pC9v`. -/
def cC9present : Child := .box ⟨5, ⟨10, 10⟩, ⟨0, 0⟩, none, (0, 0), true, some 1⟩

/-- Witness for C9 on both branches. -/
theorem claim_c9_remove_witness :
    (removeChild none pC9v cC9absent = ⟨pC9v, none, some "ValueError: x not in list"⟩)
    ∧ ((removeChild none pC9v cC9present).err = none
       ∧ (removeChild none pC9v cC9present).returned = some (cC9present.setParentRef none)
       ∧ (removeChild none pC9v cC9present).state.children.map Child.idOf
           = eraseFirstNat (pC9v.children.map Child.idOf) cC9present.idOf) :=
  ⟨(claim_c9_remove none pC9v cC9absent).1 (by decide),
   (claim_c9_remove none pC9v cC9present).2 (by decide)⟩

/-- True for plain (non-Container) children. -/
def Child.isBox : Child → Bool
  | .box _ => true
  | .cont _ _ _ => false

@[simp]
theorem recalculate_size (sp : Option ParentRef) (p : ParentC) :
    (recalculate sp p).d.size
      = calculateSize sp p.cfg p.d.minSize p.d.maxSize p.d.size
          ((p.children.filter Child.visibleOf).map Child.sizeOf) := rfl

@[simp]
theorem recalculate_cfg (sp : Option ParentRef) (p : ParentC) :
    (recalculate sp p).cfg = p.cfg := rfl

@[simp]
theorem recalculate_id (sp : Option ParentRef) (p : ParentC) :
    (recalculate sp p).id = p.id := rfl

@[simp]
theorem recalculate_minSize (sp : Option ParentRef) (p : ParentC) :
    (recalculate sp p).d.minSize = p.d.minSize := rfl

@[simp]
theorem recalculate_maxSize (sp : Option ParentRef) (p : ParentC) :
    (recalculate sp p).d.maxSize = p.d.maxSize := rfl

theorem nonGrowPass_boxes (pv : PView) (cs : List Child)
    (h : ∀ c ∈ cs, c.isBox = true) : nonGrowPass pv cs = cs := by
  induction cs with
  | nil => rfl
  | cons c rest ih =>
      have hc := h c (List.mem_cons_self c rest)
      have hrest := fun x hx => h x (List.mem_cons_of_mem c hx)
      unfold nonGrowPass at ih ⊢
      simp only [List.map_cons]
      rw [ih hrest]
      cases c with
      | box d => simp [childCalcSize]
      | cont d cfg kids => exact absurd hc (by simp [Child.isBox])

theorem growStep_boxes (pd : Size) (pcfg : ContainerCfg) (cs : List Child) (i : Nat)
    (h : ∀ c ∈ cs, c.isBox = true) : growStep pd pcfg cs i = cs := by
  unfold growStep
  cases hg : cs.get? i with
  | none => rfl
  | some c =>
      have hmem : c ∈ cs := List.get?_mem hg
      have hc := h c hmem
      cases c with
      | box d => simp [Child.isGrow, Child.visibleOf]
      | cont d cfg kids => exact absurd hc (by simp [Child.isBox])

theorem growPass_aux_boxes (pd : Size) (pcfg : ContainerCfg) (cs : List Child)
    (h : ∀ c ∈ cs, c.isBox = true) :
    ∀ idxs : List Nat, idxs.foldl (growStep pd pcfg) cs = cs := by
  intro idxs
  induction idxs with
  | nil => rfl
  | cons i rest ih =>
      simp only [List.foldl_cons, growStep_boxes pd pcfg cs i h, ih]

theorem growPass_boxes (pd : Size) (pcfg : ContainerCfg) (cs : List Child)
    (h : ∀ c ∈ cs, c.isBox = true) : growPass pd pcfg cs = cs :=
  growPass_aux_boxes pd pcfg cs h (List.range cs.length)

theorem positionFold_boxes (ld : LayoutDirection) (gap : Int) :
    ∀ (off : Size) (cs : List Child), (∀ c ∈ cs, c.isBox = true) →
      ∀ c' ∈ positionFold Child.visibleOf Child.sizeOf Child.setPos ld gap off cs,
        c'.isBox = true := by
  intro off cs
  induction cs generalizing off with
  | nil => intro _ c' hc'; exact absurd hc' (by simp [positionFold])
  | cons c rest ih =>
      intro h c' hc'
      have hc := h c (List.mem_cons_self c rest)
      have hrest := fun x hx => h x (List.mem_cons_of_mem c hx)
      unfold positionFold at hc'
      by_cases hv : c.visibleOf = true
      · rw [if_pos hv] at hc'
        rcases List.mem_cons.mp hc' with h1 | h1
        · subst h1
          cases c with
          | box d => rfl
          | cont d cfg kids => exact absurd hc (by simp [Child.isBox])
        · exact ih _ hrest c' h1
      · rw [if_neg hv] at hc'
        rcases List.mem_cons.mp hc' with h1 | h1
        · subst h1; exact hc
        · exact ih _ hrest c' h1

theorem map_cpp_boxes (cs : List Child) (h : ∀ c ∈ cs, c.isBox = true) :
    cs.map (fun c => if c.visibleOf then childPositionPass c else c) = cs := by
  induction cs with
  | nil => rfl
  | cons c rest ih =>
      have hc := h c (List.mem_cons_self c rest)
      have hrest := fun x hx => h x (List.mem_cons_of_mem c hx)
      simp only [List.map_cons, ih hrest]
      cases c with
      | box d => simp [childPositionPass]
      | cont d cfg kids => exact absurd hc (by simp [Child.isBox])

/-- When all children are plain boxes, the recalculation protocol only
moves them: the resulting children list is the position pass applied to
the original children. -/
theorem recalculate_children_boxes (sp : Option ParentRef) (p : ParentC)
    (h : ∀ c ∈ p.children, c.isBox = true) :
    (recalculate sp p).children = calcPositionTop p.cfg p.children := by
  unfold recalculate
  simp only []
  rw [nonGrowPass_boxes _ _ h, growPass_boxes _ _ _ h]
  exact map_cpp_boxes _ (positionFold_boxes _ _ _ _ h)

theorem removeFirstById_boxes (cs : List Child) (i : Nat)
    (h : ∀ c ∈ cs, c.isBox = true) :
    ∀ c' ∈ removeFirstById cs i, c'.isBox = true := by
  induction cs with
  | nil => intro c' hc'; exact absurd hc' (by simp [removeFirstById])
  | cons c rest ih =>
      intro c' hc'
      have hc := h c (List.mem_cons_self c rest)
      have hrest := fun x hx => h x (List.mem_cons_of_mem c hx)
      unfold removeFirstById at hc'
      by_cases he : c.idOf = i
      · rw [if_pos he] at hc'
        exact hrest c' hc'
      · rw [if_neg he] at hc'
        rcases List.mem_cons.mp hc' with h1 | h1
        · subst h1; exact hc
        · exact ih hrest c' h1

/-- The identity, size and visibility of a child — everything the sizing
passes of a FIT parent with plain-box children read. -/
def childKey (c : Child) : Nat × Size × Bool := (c.idOf, c.sizeOf, c.visibleOf)

theorem childKey_setPos (c : Child) (q : Int × Int) :
    childKey (Child.setPos c q) = childKey c := by
  cases c <;> rfl

theorem map_childKey_calcPositionTop (cfg : ContainerCfg) (cs : List Child) :
    (calcPositionTop cfg cs).map childKey = cs.map childKey :=
  map_positionFold _ _ _ _ _ childKey childKey_setPos _ cs

theorem visSizes_congr (L M : List Child) (h : L.map childKey = M.map childKey) :
    (L.filter Child.visibleOf).map Child.sizeOf
      = (M.filter Child.visibleOf).map Child.sizeOf := by
  induction L generalizing M with
  | nil =>
      have hM : M = [] := List.map_eq_nil_iff.mp h.symm
      subst hM; rfl
  | cons c L' ih =>
      cases M with
      | nil => exact absurd h (by simp)
      | cons m M' =>
          simp only [List.map_cons, List.cons.injEq] at h
          obtain ⟨h1, h2⟩ := h
          have hsz : c.sizeOf = m.sizeOf := congrArg (fun t => t.2.1) h1
          have hv : c.visibleOf = m.visibleOf := congrArg (fun t => t.2.2) h1
          simp only [List.filter_cons]
          rw [← hv]
          by_cases hb : c.visibleOf = true
          · simp only [hb, if_true, List.map_cons, hsz, ih M' h2]
          · simp only [hb, if_false, Bool.false_eq_true, ih M' h2]

theorem removeFirst_key_congr (L M : List Child) (h : L.map childKey = M.map childKey)
    (i : Nat) :
    (removeFirstById L i).map childKey = (removeFirstById M i).map childKey := by
  induction L generalizing M with
  | nil =>
      have hM : M = [] := List.map_eq_nil_iff.mp h.symm
      subst hM; rfl
  | cons c L' ih =>
      cases M with
      | nil => exact absurd h (by simp)
      | cons m M' =>
          simp only [List.map_cons, List.cons.injEq] at h
          obtain ⟨h1, h2⟩ := h
          have hid : c.idOf = m.idOf := congrArg (fun t => t.1) h1
          unfold removeFirstById
          rw [← hid]
          by_cases he : c.idOf = i
          · simp only [he, if_true]
            exact h2
          · simp only [he, if_false, List.map_cons, ih M' h2, h1]

theorem removeFirst_append_fresh (l1 : List Child) (x : Child) (i : Nat)
    (h : ∀ c ∈ l1, c.idOf ≠ i) (hx : x.idOf = i) :
    removeFirstById (l1 ++ [x]) i = l1 := by
  induction l1 with
  | nil => simp [removeFirstById, hx]
  | cons c l1' ih =>
      have hc := h c (List.mem_cons_self c l1')
      have hrest := fun y hy => h y (List.mem_cons_of_mem c hy)
      simp only [List.cons_append, removeFirstById, if_neg hc]
      exact congrArg (fun t => c :: t) (ih hrest)

theorem anyId_iff (cs : List Child) (i : Nat) :
    ((cs.any (fun x => x.idOf == i)) = true) ↔ i ∈ cs.map Child.idOf := by
  simp only [List.any_eq_true, List.mem_map, beq_iff_eq]

theorem fitSize_pos_self (cfg : ContainerCfg) (s1 s2 : Size) (vs : List Size)
    (h : 0 < vs.length) : fitSize cfg s1 vs = fitSize cfg s2 vs := by
  simp [fitSize, h]

/-- An initially EMPTY FIT parent of size (50,50). -/
def pC6v : ParentC :=
  ⟨0, ⟨9, ⟨50, 50⟩, ⟨0, 0⟩, none, (0, 0), true, none⟩,
   ⟨.FIT, .LEFT_TO_RIGHT, ⟨0, 0, 0, 0⟩, 0⟩, []⟩

/-- The box added to and removed from `pC6v`. -/
def bC6v : BoxData := ⟨1, ⟨20, 20⟩, ⟨0, 0⟩, none, (0, 0), true, none⟩

/-- Claim C6 (counterexample): adding a (20,20) box to an empty (50,50)
FIT container and removing it leaves the container at (20,20), not its
pre-add (50,50) — with zero visible children the fit step keeps the size
acquired during the add. -/
theorem claim_c6_counterexample :
    (removeChild none (addChild none pC6v (Child.box bC6v)) (Child.box bC6v)).state.d.size
        = ⟨20, 20⟩
    ∧ pC6v.d.size = ⟨50, 50⟩ ∧ (⟨20, 20⟩ : Size) ≠ (⟨50, 50⟩ : Size) := by
  decide

/-- The visibility, configuration and grandchildren of a child — preserved
by all sizing passes and by the top-level position pass. -/
def childShape (c : Child) : Bool × Option (ContainerCfg × List BoxData) :=
  (c.visibleOf,
   match c with
   | .box _ => none
   | .cont _ cfg kids => some (cfg, kids))

theorem childShape_childCalcSize (pv : PView) (c : Child) :
    childShape (childCalcSize pv c) = childShape c := by
  cases c <;> rfl

theorem childShape_setPos (c : Child) (q : Int × Int) :
    childShape (Child.setPos c q) = childShape c := by
  cases c <;> rfl

/-- The children list after recalculation is the final
grandchild-positioning map applied to a list with the same per-child
visibility, configuration and grandchildren as the input. -/
theorem recalc_children_shape (sp : Option ParentRef) (p : ParentC) :
    ∃ l : List Child,
      (recalculate sp p).children
          = l.map (fun c => if c.visibleOf then childPositionPass c else c)
      ∧ l.map childShape = p.children.map childShape := by
  refine ⟨_, rfl, ?_⟩
  unfold calcPositionTop
  rw [map_positionFold _ _ _ _ _ childShape childShape_setPos]
  rw [map_growPass _ _ _ childShape childShape_childCalcSize]
  rw [map_nonGrowPass _ _ childShape childShape_childCalcSize]

/-- Claim C5 (amended): the protocol positions the direct visible children
AND runs the position pass of every direct visible child Container, so a
visible child Container's grandchildren are repositioned — in particular
its first visible grandchild is placed at the child's padding origin. -/
theorem claim_c5_amended (sp : Option ParentRef) (p : ParentC) (i : Nat)
    (d : BoxData) (cfg : ContainerCfg) (g : BoxData) (rest : List BoxData)
    (hip : p.children.get? i = some (.cont d cfg (g :: rest)))
    (hv : d.visible = true) (hg : g.visible = true) :
    ∃ d2 rest2, (recalculate sp p).children.get? i
      = some (.cont d2 cfg
          ({ g with position := (cfg.padding.left, cfg.padding.top) } :: rest2)) := by
  obtain ⟨l, hl, hsh⟩ := recalc_children_shape sp p
  have h1 : (l.get? i).map childShape = (p.children.get? i).map childShape := by
    rw [← List.get?_map, ← List.get?_map, hsh]
  rw [hip] at h1
  cases hli : l.get? i with
  | none => rw [hli] at h1; exact absurd h1 (by simp)
  | some c =>
      rw [hli] at h1
      simp only [Option.map_some'] at h1
      have h2 : childShape c = childShape (.cont d cfg (g :: rest)) :=
        Option.some.inj h1
      cases c with
      | box d' =>
          exact absurd h2 (by simp [childShape])
      | cont d2 cfg2 kids2 =>
          have hcfg : cfg2 = cfg := by
            have := congrArg (fun t => t.2) h2
            simp only [childShape] at this
            exact (Prod.mk.injEq _ _ _ _).mp (Option.some.inj this) |>.1
          have hkids : kids2 = g :: rest := by
            have := congrArg (fun t => t.2) h2
            simp only [childShape] at this
            exact (Prod.mk.injEq _ _ _ _).mp (Option.some.inj this) |>.2
          have hvis2 : d2.visible = true := by
            have := congrArg (fun t => t.1) h2
            simp only [childShape, Child.visibleOf, Child.dOf] at this
            rw [this]; exact hv
          refine ⟨d2, positionFold (fun k => k.visible) (fun k => k.size)
            (fun k q => { k with position := q }) cfg.layoutDirection cfg.gap
            (advanceOff cfg.layoutDirection cfg.gap
              ⟨cfg.padding.left, cfg.padding.top⟩ g.size rest.isEmpty) rest, ?_⟩
          rw [hl, List.get?_map, hli]
          simp only [Option.map_some']
          have hcv : (Child.cont d2 cfg2 kids2).visibleOf = true := hvis2
          rw [hcfg, hkids]
          simp only [Child.visibleOf, Child.dOf, hvis2, if_true]
          simp only [childPositionPass, positionFold, if_pos hg]

/-- The concrete tree for C5's counterexample: a FIT parent whose visible
child Container (padding left 7, top 9) holds one grandchild parked at
position (123, 456). -/
def pC5v : ParentC :=
  ⟨0, ⟨9, ⟨50, 50⟩, ⟨0, 0⟩, none, (0, 0), true, none⟩,
   ⟨.FIT, .LEFT_TO_RIGHT, ⟨0, 0, 0, 0⟩, 0⟩,
   [.cont ⟨1, ⟨20, 20⟩, ⟨0, 0⟩, none, (0, 0), true, some 0⟩
      ⟨.FIT, .LEFT_TO_RIGHT, ⟨7, 9, 0, 0⟩, 0⟩
      [⟨2, ⟨5, 5⟩, ⟨0, 0⟩, none, (123, 456), true, some 1⟩]]⟩

/-- The positions of the grandchildren under the child at a given slot. -/
def grandPositions (c : Option Child) : List (Int × Int) :=
  match c with
  | some (.cont _ _ kids) => kids.map (fun k => k.position)
  | _ => []

/-- Claim C5 (counterexample): running the protocol on `pC5v` moves the
grandchild from (123, 456) to (7, 9) — grandchild positions are NOT left
unchanged. -/
theorem claim_c5_counterexample :
    grandPositions ((recalculate none pC5v).children.get? 0) = [(7, 9)]
    ∧ ((7 : Int), (9 : Int)) ≠ ((123 : Int), (456 : Int)) := by
  decide

/-- Witness for C5 (amended) on the concrete tree `pC5v`: the grandchild is
placed at the child's padding origin (7, 9). -/
theorem claim_c5_amended_witness :
    ∃ d2 rest2, (recalculate none pC5v).children.get? 0
      = some (.cont d2 ⟨.FIT, .LEFT_TO_RIGHT, ⟨7, 9, 0, 0⟩, 0⟩
          (⟨2, ⟨5, 5⟩, ⟨0, 0⟩, none, (7, 9), true, some 1⟩ :: rest2)) :=
  claim_c5_amended none pC5v 0 _ _ _ _ rfl rfl rfl

/-- The clamp with the default min (0,0) and no max is inert on
non-negative sizes. -/
theorem clampSize_zero_none (s : Size) (hx : 0 ≤ s.x) (hy : 0 ≤ s.y) :
    clampSize ⟨0, 0⟩ none s = s := by
  have h : Size.lt s ⟨0, 0⟩ = false := by
    simp only [Size.lt, Bool.or_eq_false_iff, decide_eq_false_iff_not, not_lt]
    exact ⟨hx, hy⟩
  simp [clampSize, h]

/-- Claim C3 (amended): for a FIXED horizontal parent with exactly two
visible children — one childless GROWX container (default min/max,
non-negative height, non-negative room left) and one FIXED plain-box
sibling — after recalculation the GROWX child's width + the sibling's
width + gap equals the parent's INNER width; adding the horizontal padding
once more gives the parent's full outer width (not its inner width, as the
claim stated). -/
theorem claim_c3_amended (sp : Option ParentRef) (p : ParentC)
    (f gd : BoxData) (gcfg : ContainerCfg)
    (hmode : p.cfg.sizeMode = .FIXED)
    (hld : p.cfg.layoutDirection = .LEFT_TO_RIGHT)
    (hch : p.children = [Child.box f, Child.cont gd gcfg []]
         ∨ p.children = [Child.cont gd gcfg [], Child.box f])
    (hgrow : gcfg.sizeMode = .GROWX)
    (hvf : f.visible = true) (hvg : gd.visible = true)
    (hpclamp : clampSize p.d.minSize p.d.maxSize p.d.size = p.d.size)
    (hgmin : gd.minSize = ⟨0, 0⟩) (hgmax : gd.maxSize = none)
    (hgy : 0 ≤ gd.size.y)
    (hroom : 0 ≤ p.d.size.x - p.cfg.padding.left - p.cfg.padding.right
        - f.size.x - p.cfg.gap) :
    (growContWidths (recalculate sp p).children).length = 1
    ∧ ∀ w ∈ growContWidths (recalculate sp p).children,
        w + f.size.x + p.cfg.gap + (p.cfg.padding.left + p.cfg.padding.right)
          = p.d.size.x := by
  rcases p with ⟨pid, pd, pcfg, pch⟩
  rcases pcfg with ⟨pm, pl, ppad, pgap⟩
  rcases ppad with ⟨padl, padt, padr, padb⟩
  rcases gcfg with ⟨gm, gl, gpad, ggap⟩
  dsimp only at hmode hld hgrow hpclamp hroom ⊢
  subst hmode hld hgrow
  rcases hch with hch | hch <;> subst hch <;>
    refine ⟨?_, ?_⟩ <;>
    simp only [recalculate, calculateSize, hpclamp, pviewOf, nonGrowPass, growPass,
      growStep, childCalcSize, Child.visibleOf, Child.isGrow, Child.dOf, Child.sizeOf,
      Child.meta, List.filter, List.map, hvf, hvg, Bool.and_true, Bool.and_false,
      Bool.not_true, Bool.not_false, beq_self_eq_true, beq_iff_eq, if_true, if_false,
      List.length_cons, List.length_nil, List.range_succ, List.range_zero,
      List.foldl_cons, List.foldl_nil, getChildAvailableSpace,
      PView.visibleSizes, fitSize, List.getLast?, Option.getD, List.sum_cons,
      List.sum_nil, calcPositionTop, positionFold, childPositionPass, Child.setPos,
      Child.setD, advanceOff, growContWidths, List.filterMap, hgmin, hgmax,
      Bool.true_or, Bool.false_or, Bool.or_true, Bool.true_and, Bool.false_and,
      Bool.not_false, lt_self_iff_false, Nat.cast_ofNat, zero_add, add_zero, mul_one,
      List.mem_cons, List.mem_singleton, List.not_mem_nil, or_false,
      clampSize_cases, Bool.false_eq_true, List.nil_append, List.cons_append,
      List.singleton_append, List.get?_nil, List.get?_cons_zero, List.get?_cons_succ,
      List.set_cons_zero, List.set_cons_succ, eq_self_iff_true, forall_eq] <;>
    split_ifs <;> dsimp only <;> omega

/-- C3's concrete parent: FIXED 100x50, horizontal, padding (2,2,2,2),
gap 3. -/
def pC3v : ParentC :=
  ⟨0, ⟨9, ⟨100, 50⟩, ⟨0, 0⟩, none, (0, 0), true, none⟩,
   ⟨.FIXED, .LEFT_TO_RIGHT, ⟨2, 2, 2, 2⟩, 3⟩,
   [Child.box ⟨1, ⟨10, 10⟩, ⟨0, 0⟩, none, (0, 0), true, some 0⟩,
    Child.cont ⟨2, ⟨0, 10⟩, ⟨0, 0⟩, none, (0, 0), true, some 0⟩
      ⟨.GROWX, .LEFT_TO_RIGHT, ⟨0, 0, 0, 0⟩, 0⟩ []]⟩

/-- C3's FIXED sibling box. -/
def fC3v : BoxData := ⟨1, ⟨10, 10⟩, ⟨0, 0⟩, none, (0, 0), true, some 0⟩

/-- C3's GROWX child state. -/
def gdC3v : BoxData := ⟨2, ⟨0, 10⟩, ⟨0, 0⟩, none, (0, 0), true, some 0⟩

/-- Witness for C3 (amended) on `pC3v`: the single grow width satisfies
width + 10 + 3 + (2 + 2) = 100, the parent's full outer width. -/
theorem claim_c3_amended_witness :
    (growContWidths (recalculate none pC3v).children).length = 1
    ∧ ∀ w ∈ growContWidths (recalculate none pC3v).children,
        w + fC3v.size.x + pC3v.cfg.gap
          + (pC3v.cfg.padding.left + pC3v.cfg.padding.right) = pC3v.d.size.x :=
  claim_c3_amended none pC3v fC3v gdC3v ⟨.GROWX, .LEFT_TO_RIGHT, ⟨0, 0, 0, 0⟩, 0⟩
    rfl rfl (Or.inl rfl) rfl rfl rfl (by decide) rfl rfl (by decide) (by decide)

/-- Claim C3 (counterexample): on `pC3v` the GROWX child ends at width 83;
83 + 10 + 3 + 4 = 100 is the parent's OUTER width, not its inner width
96 = 100 - 2 - 2, so the claim's equation with "+ padding == inner width"
fails. -/
theorem claim_c3_counterexample :
    growContWidths (recalculate none pC3v).children = [83]
    ∧ ¬ ((83 : Int) + 10 + 3 + (2 + 2) = 100 - 2 - 2) := by
  decide

/-- A child whose stored size is already the result of its own size
computation: plain boxes always are (recalculation never resizes them);
a child Container is settled when `_calculate_size` would leave its size
unchanged (it is laid out, with an inert clamp).  For non-grow children
the parent argument is irrelevant, so `none` is used. -/
def Child.settled : Child → Bool
  | .box _ => true
  | .cont d cfg kids =>
      decide (calculateSize none cfg d.minSize d.maxSize d.size
        ((kids.filter (fun k => k.visible)).map (fun k => k.size)) = d.size)

/-- A non-grow size computation never consults the parent. -/
theorem calculateSize_nongrow_parent (p1 p2 : Option ParentRef) (cfg : ContainerCfg)
    (minS : Size) (maxS : Option Size) (cur : Size) (ks : List Size)
    (h : (cfg.sizeMode == SizeMode.GROWX || cfg.sizeMode == SizeMode.GROWY) = false) :
    calculateSize p1 cfg minS maxS cur ks = calculateSize p2 cfg minS maxS cur ks := by
  cases hm : cfg.sizeMode
  · simp [calculateSize, hm]
  · simp [calculateSize, hm]
  · rw [hm] at h
    exact absurd h (by simp)
  · rw [hm] at h
    exact absurd h (by simp)

/-- A settled non-grow child is a fixed point of the child sizing step. -/
theorem childCalcSize_settled (pv : PView) (c : Child)
    (hng : c.isGrow = false) (hs : c.settled = true) :
    childCalcSize pv c = c := by
  cases c with
  | box d => rfl
  | cont d cfg kids =>
      have heq : calculateSize none cfg d.minSize d.maxSize d.size
          ((kids.filter (fun k => k.visible)).map (fun k => k.size)) = d.size :=
        of_decide_eq_true hs
      show Child.cont { d with size := (calculateSize (some (.ofContainer pv)) cfg
          d.minSize d.maxSize d.size
          ((kids.filter (fun k => k.visible)).map (fun k => k.size))) } cfg kids
        = Child.cont d cfg kids
      rw [calculateSize_nongrow_parent (some (.ofContainer pv)) none cfg _ _ _ _ hng,
        heq]

/-- The non-grow pass is the identity on settled non-grow children. -/
theorem nonGrowPass_settled (pv : PView) (cs : List Child)
    (h : ∀ c ∈ cs, c.isGrow = false ∧ c.settled = true) :
    nonGrowPass pv cs = cs := by
  induction cs with
  | nil => rfl
  | cons c rest ih =>
      have hc := h c (List.mem_cons_self c rest)
      have hrest := fun x hx => h x (List.mem_cons_of_mem c hx)
      unfold nonGrowPass at ih ⊢
      simp only [List.map_cons]
      rw [ih hrest, childCalcSize_settled pv c hc.1 hc.2, ite_self]

theorem growStep_nogrow (pd : Size) (pcfg : ContainerCfg) (cs : List Child) (i : Nat)
    (h : ∀ c ∈ cs, c.isGrow = false) : growStep pd pcfg cs i = cs := by
  unfold growStep
  cases hg : cs.get? i with
  | none => rfl
  | some c =>
      have hc := h c (List.get?_mem hg)
      simp [hc]

theorem growPass_nogrow (pd : Size) (pcfg : ContainerCfg) (cs : List Child)
    (h : ∀ c ∈ cs, c.isGrow = false) : growPass pd pcfg cs = cs := by
  have haux : ∀ idxs : List Nat, idxs.foldl (growStep pd pcfg) cs = cs := by
    intro idxs
    induction idxs with
    | nil => rfl
    | cons i rest ih => simp only [List.foldl_cons, growStep_nogrow pd pcfg cs i h, ih]
  exact haux (List.range cs.length)

/-- When every child is non-grow and settled, the recalculation protocol
only repositions: the children become the top-level position pass followed
by each visible child Container's own position pass. -/
theorem recalculate_children_settled (sp : Option ParentRef) (p : ParentC)
    (h : ∀ c ∈ p.children, c.isGrow = false ∧ c.settled = true) :
    (recalculate sp p).children
      = (calcPositionTop p.cfg p.children).map
          (fun c => if c.visibleOf then childPositionPass c else c) := by
  unfold recalculate
  simp only []
  rw [nonGrowPass_settled _ _ h, growPass_nogrow _ _ _ (fun c hc => (h c hc).1)]

/-- Everything a FIT parent's size passes and the remove-by-identity step
read from a child, position excluded: identity, size, visibility, grow-ness
and settledness. -/
def childLayoutKey (c : Child) : Nat × Size × Bool × Bool × Bool :=
  (c.idOf, c.sizeOf, c.visibleOf, c.isGrow, c.settled)

theorem childLayoutKey_setPos (c : Child) (q : Int × Int) :
    childLayoutKey (Child.setPos c q) = childLayoutKey c := by
  cases c <;> rfl

/-- Extraction of the visible grandchildren's sizes is determined by the
grandchildren's `(size, visible)` data. -/
theorem kidMeta_congr (L M : List BoxData)
    (h : L.map (fun k => (k.size, k.visible)) = M.map (fun k => (k.size, k.visible))) :
    (L.filter (fun k => k.visible)).map (fun k => k.size)
      = (M.filter (fun k => k.visible)).map (fun k => k.size) := by
  induction L generalizing M with
  | nil =>
      have hM : M = [] := List.map_eq_nil_iff.mp h.symm
      subst hM; rfl
  | cons c L' ih =>
      cases M with
      | nil => exact absurd h (by simp)
      | cons m M' =>
          simp only [List.map_cons, List.cons.injEq] at h
          obtain ⟨h1, h2⟩ := h
          have hsz : c.size = m.size := congrArg (fun t => t.1) h1
          have hv : c.visible = m.visible := congrArg (fun t => t.2) h1
          simp only [List.filter_cons]
          rw [← hv]
          by_cases hb : c.visible = true
          · simp only [hb, if_true, List.map_cons, hsz, ih M' h2]
          · simp only [hb, if_false, Bool.false_eq_true, ih M' h2]

/-- A child Container's own position pass does not change its layout key:
it only rewrites the grandchildren's positions. -/
theorem childLayoutKey_cpp (c : Child) :
    childLayoutKey (childPositionPass c) = childLayoutKey c := by
  cases c with
  | box d => rfl
  | cont d cfg kids =>
      have hk : ((positionFold (fun k => k.visible) (fun k => k.size)
            (fun k p => { k with position := p })
            cfg.layoutDirection cfg.gap ⟨cfg.padding.left, cfg.padding.top⟩ kids).filter
              (fun k => k.visible)).map (fun k => k.size)
          = (kids.filter (fun k => k.visible)).map (fun k => k.size) := by
        refine kidMeta_congr _ _ ?_
        exact map_positionFold (fun k => k.visible) (fun k => k.size)
          (fun k p => { k with position := p }) cfg.layoutDirection cfg.gap
          (fun k => (k.size, k.visible)) (fun k q => rfl) _ kids
      simp only [childLayoutKey, childPositionPass, Child.idOf, Child.sizeOf,
        Child.visibleOf, Child.isGrow, Child.dOf, Child.settled]
      rw [hk]

theorem map_key_cppIf (f : Child → β) (hq : ∀ c, f (childPositionPass c) = f c)
    (cs : List Child) :
    (cs.map (fun c => if c.visibleOf then childPositionPass c else c)).map f
      = cs.map f := by
  induction cs with
  | nil => rfl
  | cons c rest ih =>
      simp only [List.map_cons, ih]
      by_cases h : c.visibleOf = true
      · simp only [h, if_true, hq]
      · simp only [h, if_false, Bool.false_eq_true]

/-- Commuting removal-by-identity with any projection that determines the
identity. -/
theorem removeFirst_map_congr (f : Child → β)
    (hid : ∀ c c', f c = f c' → c.idOf = c'.idOf) :
    ∀ (L M : List Child), L.map f = M.map f → ∀ i : Nat,
      (removeFirstById L i).map f = (removeFirstById M i).map f := by
  intro L
  induction L with
  | nil =>
      intro M h i
      have hM : M = [] := List.map_eq_nil_iff.mp h.symm
      subst hM; rfl
  | cons c L' ih =>
      intro M h i
      cases M with
      | nil => exact absurd h (by simp)
      | cons m M' =>
          simp only [List.map_cons, List.cons.injEq] at h
          obtain ⟨h1, h2⟩ := h
          have hceq : c.idOf = m.idOf := hid c m h1
          unfold removeFirstById
          rw [← hceq]
          by_cases he : c.idOf = i
          · simp only [he, if_true]
            exact h2
          · simp only [he, if_false, List.map_cons, ih M' h2 i, h1]

/-- Transferring a membership property across equal projected lists. -/
theorem mem_map_transfer (f : Child → β) (L M : List Child)
    (h : L.map f = M.map f) :
    ∀ c ∈ L, ∃ c' ∈ M, f c = f c' := by
  intro c hc
  have : f c ∈ M.map f := by
    rw [← h]
    exact List.mem_map_of_mem f hc
  rcases List.mem_map.mp this with ⟨c', hc', he⟩
  exact ⟨c', hc', he.symm⟩

/-- Claim C6 (amended): for a FIT container with no grow-mode children,
whose children are each settled (a plain box, or a child Container whose
stored size is already the fixed point of its own size computation), with
at least one visible child, whose own size equals the fit of its visible
children and whose clamp is inert on that fit value, adding any fresh box
and removing it again restores the container's size.  (An initially empty
FIT container instead keeps the size acquired during the add, since fit
sizing is skipped with zero visible children.) -/
theorem claim_c6_amended (sp : Option ParentRef) (p : ParentC) (b : BoxData)
    (hfit : p.cfg.sizeMode = .FIT)
    (hng : ∀ c ∈ p.children, c.isGrow = false)
    (hset : ∀ c ∈ p.children, c.settled = true)
    (hfresh : ∀ c ∈ p.children, c.idOf ≠ b.id)
    (hvis : 0 < ((p.children.filter Child.visibleOf).map Child.sizeOf).length)
    (hlaid : p.d.size
      = fitSize p.cfg p.d.size ((p.children.filter Child.visibleOf).map Child.sizeOf))
    (hclamp : clampSize p.d.minSize p.d.maxSize
        (fitSize p.cfg p.d.size ((p.children.filter Child.visibleOf).map Child.sizeOf))
      = fitSize p.cfg p.d.size ((p.children.filter Child.visibleOf).map Child.sizeOf)) :
    (removeChild sp (addChild sp p (Child.box b)) (Child.box b)).state.d.size
      = p.d.size := by
  have hidOf5 : ∀ c c' : Child, childLayoutKey c = childLayoutKey c' → c.idOf = c'.idOf :=
    fun c c' h => congrArg (fun t => t.1) h
  have hb'id : ((Child.box b).setParentRef (some p.id)).idOf = b.id := rfl
  set q : ParentC :=
    { p with children := p.children ++ [(Child.box b).setParentRef (some p.id)] } with hq
  have hqok : ∀ c ∈ q.children, c.isGrow = false ∧ c.settled = true := by
    intro c hc
    rcases List.mem_append.mp hc with h1 | h1
    · exact ⟨hng c h1, hset c h1⟩
    · rw [List.mem_singleton.mp h1]
      exact ⟨rfl, rfl⟩
  have hadd : addChild sp p (Child.box b) = recalculate sp q := rfl
  have hkey1 : (recalculate sp q).children.map childLayoutKey
      = q.children.map childLayoutKey := by
    rw [recalculate_children_settled sp q hqok]
    rw [map_key_cppIf childLayoutKey childLayoutKey_cpp]
    unfold calcPositionTop
    rw [map_positionFold _ _ _ _ _ childLayoutKey childLayoutKey_setPos]
  have hguard : ((recalculate sp q).children.any
      (fun x => x.idOf == (Child.box b).idOf)) = true := by
    have hid : (recalculate sp q).children.map Child.idOf
        = q.children.map Child.idOf := by
      have h2 := congrArg
        (List.map (fun t : Nat × Size × Bool × Bool × Bool => t.1)) hkey1
      simpa [List.map_map, Function.comp] using h2
    show ((recalculate sp q).children.any (fun x => x.idOf == b.id)) = true
    rw [anyId_iff, hid, hq]
    simp only [List.map_append, List.map_cons, List.map_nil, List.mem_append,
      List.mem_cons, List.not_mem_nil, or_false]
    exact Or.inr hb'id.symm
  have hremoveOk : (removeChild sp (recalculate sp q) (Child.box b)).state
      = recalculate sp { recalculate sp q with
          children := removeFirstById (recalculate sp q).children (Child.box b).idOf } := by
    simp [removeChild, hguard]
  have hkeyL2 : (removeFirstById (recalculate sp q).children (Child.box b).idOf).map
        childLayoutKey
      = p.children.map childLayoutKey := by
    have h1 := removeFirst_map_congr childLayoutKey hidOf5 _ _ hkey1 (Child.box b).idOf
    rw [h1]
    show (removeFirstById q.children b.id).map childLayoutKey
      = p.children.map childLayoutKey
    rw [hq]
    exact congrArg (List.map childLayoutKey)
      (removeFirst_append_fresh p.children _ b.id hfresh hb'id)
  have hck : (removeFirstById (recalculate sp q).children (Child.box b).idOf).map childKey
      = p.children.map childKey := by
    have h2 := congrArg
      (List.map (fun t : Nat × Size × Bool × Bool × Bool => (t.1, t.2.1, t.2.2.1)))
      hkeyL2
    simpa [List.map_map, Function.comp] using h2
  have hvs : ((removeFirstById (recalculate sp q).children (Child.box b).idOf).filter
        Child.visibleOf).map Child.sizeOf
      = (p.children.filter Child.visibleOf).map Child.sizeOf :=
    visSizes_congr _ _ hck
  rw [hadd, hremoveOk, recalculate_size]
  show calculateSize sp p.cfg p.d.minSize p.d.maxSize
      (calculateSize sp p.cfg p.d.minSize p.d.maxSize p.d.size
        ((q.children.filter Child.visibleOf).map Child.sizeOf))
      (((removeFirstById (recalculate sp q).children (Child.box b).idOf).filter
          Child.visibleOf).map Child.sizeOf)
    = p.d.size
  rw [hvs]
  have hcs : ∀ s : Size,
      calculateSize sp p.cfg p.d.minSize p.d.maxSize s
        ((p.children.filter Child.visibleOf).map Child.sizeOf) = p.d.size := by
    intro s
    simp only [calculateSize, hfit]
    rw [if_pos hvis, fitSize_pos_self p.cfg s p.d.size _ hvis, hclamp, ← hlaid]
  exact hcs _

/-- A laid-out FIT parent whose single child is itself a laid-out (settled)
FIT container: the child holds a (5,5) grandchild, its stored size is its
own fit value (5,5), and the parent's size is the fit of that child. -/
def pC6w : ParentC :=
  ⟨0, ⟨9, ⟨5, 5⟩, ⟨0, 0⟩, none, (0, 0), true, none⟩,
   ⟨.FIT, .LEFT_TO_RIGHT, ⟨0, 0, 0, 0⟩, 0⟩,
   [.cont ⟨2, ⟨5, 5⟩, ⟨0, 0⟩, none, (0, 0), true, some 0⟩
      ⟨.FIT, .LEFT_TO_RIGHT, ⟨0, 0, 0, 0⟩, 0⟩
      [⟨20, ⟨5, 5⟩, ⟨0, 0⟩, none, (0, 0), true, some 2⟩]]⟩

/-- A fresh box to round-trip through `pC6w`. -/
def bC6w : BoxData := ⟨3, ⟨25, 7⟩, ⟨0, 0⟩, none, (0, 0), true, none⟩

/-- Witness for C6 (amended): the laid-out FIT parent over a settled FIT
container child regains size (5,5) after adding and removing the (25,7)
box. -/
theorem claim_c6_amended_witness :
    (removeChild none (addChild none pC6w (Child.box bC6w)) (Child.box bC6w)).state.d.size
      = pC6w.d.size :=
  claim_c6_amended none pC6w bC6w rfl (by decide) (by decide) (by decide)
    (by decide) (by decide) (by decide)
